import Mathlib

/-!
Verification of the voiceify content-extraction-and-conversion pipeline.

The definitions below are a shallow embedding of `src/convex/articles.ts`
(article record store, submit/retry mutations, the processing orchestrator,
the heuristic extractor `extractWithTraditionalMethods`, the extraction
coordinator `extractArticleContent`, and the post-processing of
`extractWithAI`) and of the audio action `generateAudio` (chunk
concatenation).  JavaScript strings are modelled as `List Char` (all inputs
of interest are ASCII, where JS `length` agrees with the char count), and
each JS regular expression used by the source is implemented as a dedicated
matcher function reproducing that regex's leftmost-match / greedy / lazy
backtracking behaviour.  Recursions that consume a variable number of
characters per step take an explicit fuel argument; wrappers instantiate the
fuel with the string length, which each matcher's step (consuming at least
one character) never exhausts.
-/

/-- ASCII lower-casing, as used by the `i` (ignore-case) regex flag. -/
def lowerChar (c : Char) : Char :=
  if 'A' ≤ c && c ≤ 'Z' then Char.ofNat (c.toNat + 32) else c

/-- Case-insensitive "the pattern `p` is a literal prefix of `s`". -/
def ciStartsWith : List Char → List Char → Bool
  | [], _ => true
  | _ :: _, [] => false
  | p :: ps, c :: cs => lowerChar p == lowerChar c && ciStartsWith ps cs

/-- Length of the maximal prefix without a `<` character (regex `[^<]*`, greedy). -/
def spanNotLt : List Char → Nat
  | [] => 0
  | c :: rest => if c = '<' then 0 else spanNotLt rest + 1

/-- Length of the maximal prefix without a `>` character (regex `[^>]*`, greedy). -/
def spanNotGt : List Char → Nat
  | [] => 0
  | c :: rest => if c = '>' then 0 else spanNotGt rest + 1

/-- Is `c` one of the quote characters of the regex class `["']`? -/
def quoteCh (c : Char) : Bool := c = '"' || c.toNat = 39

/-- Length of the maximal prefix without a quote character (regex `[^"']*`, greedy). -/
def spanNotQuote : List Char → Nat
  | [] => 0
  | c :: rest => if quoteCh c then 0 else spanNotQuote rest + 1

/-- JS `\s` (and `String.prototype.trim`) whitespace, restricted to the
characters that can occur in the markup handled here: space, tab, line feed,
carriage return, vertical tab, form feed and no-break space. -/
def isJsWs (c : Char) : Bool :=
  c = ' ' || c = '\t' || c = '\n' || c.toNat = 13 || c.toNat = 11 || c.toNat = 12 ||
    c.toNat = 160

/-- JS `String.prototype.trim` on char lists. -/
def trimChars (s : List Char) : List Char :=
  ((s.dropWhile isJsWs).reverse.dropWhile isJsWs).reverse

/-- Greedy backtracking for a `X*` quantifier: try the continuation `k` on
`r.drop i`, `r.drop (i-1)`, ..., `r.drop 0`, returning the first success.
This is the order in which a backtracking regex engine explores the split
points of a greedy quantifier (longest consumed first). -/
def tryDesc {α : Type} (r : List Char) (k : List Char → Option α) : Nat → Option α
  | 0 => k r
  | i + 1 =>
    match k (r.drop (i + 1)) with
    | some x => some x
    | none => tryDesc r k i

/-- Leftmost-match search: apply the single-position matcher `f` at every
start position from the left and return the first success, as
`String.prototype.match` does for a regex without the `g` flag. -/
def firstSome {α : Type} (f : List Char → Option α) : List Char → Option α
  | [] => none
  | c :: rest =>
    match f (c :: rest) with
    | some x => some x
    | none => firstSome f rest

/-- JS `\w` word characters `[A-Za-z0-9_]`, used for the `\b` boundary. -/
def isWordChar (c : Char) : Bool := c.isAlphanum || c = '_'

/-- Loop part `(?:(?!<\/TAG>)<[^<]*)*<\/TAG>` of the script/style stripping
regexes: repeatedly consume a `<` not starting the closing tag together with
the following `[^<]*` run, until the literal closing tag is reached.  Returns
the number of characters consumed (closing tag included).  Since `[^<]` can
never match `<`, the quantifiers are deterministic and no backtracking is
needed.  Each iteration consumes at least one character, so fuel equal to the
remaining length never runs out. -/
def matchBlockLoop (tag : List Char) : Nat → List Char → Option Nat
  | fuel, s =>
    if ciStartsWith ('<' :: '/' :: (tag ++ ['>'])) s then some (tag.length + 3)
    else
      match fuel, s with
      | fuel' + 1, '<' :: rest =>
        let n := spanNotLt rest
        (matchBlockLoop tag fuel' (rest.drop n)).map (fun m => m + n + 1)
      | _, _ => none

/-- Matcher for the whole stripping regex `<TAG\b[^<]*(?:(?!<\/TAG>)<[^<]*)*<\/TAG>`
anchored at the start of `s` (`TAG` is `script` or `style`, flag `i`).
Returns the length of the match. -/
def matchBlockAt (tag : List Char) (s : List Char) : Option Nat :=
  if ciStartsWith ('<' :: tag) s then
    let rest := s.drop (tag.length + 1)
    let boundaryOk :=
      match rest with
      | [] => true
      | c :: _ => !isWordChar c
    if boundaryOk then
      let n := spanNotLt rest
      (matchBlockLoop tag (rest.drop n).length (rest.drop n)).map
        (fun m => tag.length + 1 + n + m)
    else none
  else none

/-- Fueled global replacement of `<TAG\b...<\/TAG>` blocks by the empty
string: at each position either delete a match and continue after it, or keep
the character (leftmost, non-overlapping, as JS `replace` with the `g` flag). -/
def replaceBlocksF (tag : List Char) : Nat → List Char → List Char
  | _, [] => []
  | 0, s => s
  | fuel + 1, c :: rest =>
    match matchBlockAt tag (c :: rest) with
    | some m => replaceBlocksF tag fuel ((c :: rest).drop m)
    | none => c :: replaceBlocksF tag fuel rest

/-- `html.replace(/<TAG\b[^<]*(?:(?!<\/TAG>)<[^<]*)*<\/TAG>/gi, "")`. -/
def replaceBlocks (tag : List Char) (s : List Char) : List Char :=
  replaceBlocksF tag s.length s

/-- Matcher for `/<title[^>]*>([^<]+)<\/title>/i` anchored at the start of
`s`; returns the `([^<]+)` capture.  `[^>]*` must end at a `>` and `[^<]+`
at a `<`, so both quantifiers are deterministic. -/
def titleMatchAt (s : List Char) : Option (List Char) :=
  if ciStartsWith "<title".data s then
    let r1 := s.drop 6
    let n1 := spanNotGt r1
    match r1.drop n1 with
    | '>' :: r2 =>
      let n2 := spanNotLt r2
      if n2 = 0 then none
      else if ciStartsWith "</title>".data (r2.drop n2) then some (r2.take n2)
      else none
    | _ => none
  else none

/-- First match of the `<title>` regex in `s` (`cleanHtml.match(...)`). -/
def titleCapture : List Char → Option (List Char) := firstSome titleMatchAt

/-- Tail part `content=["']([^"']+)["']` of the og:title meta regex, anchored
at the start of `s`; returns the capture.  The capture is a maximal nonempty
run of non-quote characters followed by a quote, hence deterministic. -/
def contentAttrAt (s : List Char) : Option (List Char) :=
  if ciStartsWith "content=".data s then
    match s.drop 8 with
    | q :: r8 =>
      if quoteCh q then
        let n := spanNotQuote r8
        if n = 0 then none
        else
          match r8.drop n with
          | q2 :: _ => if quoteCh q2 then some (r8.take n) else none
          | [] => none
      else none
    | [] => none
  else none

/-- Middle part `property=["']og:title["'][^>]*content=["']([^"']+)["']` of
the meta regex, anchored at the start of `s`; the `[^>]*` is greedy with
backtracking. -/
def ogPropAt (s : List Char) : Option (List Char) :=
  if ciStartsWith "property=".data s then
    match s.drop 9 with
    | q :: r3 =>
      if quoteCh q then
        if ciStartsWith "og:title".data r3 then
          match r3.drop 8 with
          | q2 :: r5 =>
            if quoteCh q2 then tryDesc r5 contentAttrAt (spanNotGt r5)
            else none
          | [] => none
        else none
      else none
    | [] => none
  else none

/-- Matcher for `/<meta[^>]*property=["']og:title["'][^>]*content=["']([^"']+)["']/i`
anchored at the start of `s`; returns the capture. -/
def metaMatchAt (s : List Char) : Option (List Char) :=
  if ciStartsWith "<meta".data s then
    tryDesc (s.drop 5) ogPropAt (spanNotGt (s.drop 5))
  else none

/-- First match of the og:title meta regex in `s`. -/
def metaCapture : List Char → Option (List Char) := firstSome metaMatchAt

/-- The content selectors of `extractWithTraditionalMethods`, after the
source's `selector.replace(".", "")`.  Interpolated into the regex template,
`[role="main"]` becomes a character class matching a single character from
the set `{r,o,l,e,=,",m,a,i,n}` (case-insensitively, because of the `i`
flag); every other selector becomes a literal. -/
inductive SelPat : Type
  | lit : List Char → SelPat
  | roleClass : SelPat

/-- The characters of the regex character class `[role="main"]`. -/
def roleChars : List Char := ['r', 'o', 'l', 'e', '=', '"', 'm', 'a', 'i', 'n']

/-- Consume the interpolated selector pattern at the start of `s`. -/
def selPatConsume (p : SelPat) (s : List Char) : Option (List Char) :=
  match p with
  | .lit w => if ciStartsWith w s then some (s.drop w.length) else none
  | .roleClass =>
    match s with
    | c :: rest => if roleChars.contains (lowerChar c) then some rest else none
    | [] => none

/-- Does `s` start with the closing-tag pattern `<\/[^>]+>`? -/
def closeTagAt (s : List Char) : Bool :=
  match s with
  | '<' :: '/' :: r =>
    let n := spanNotGt r
    if n = 0 then false
    else
      match r.drop n with
      | c :: _ => c = '>'
      | [] => false
  | _ => false

/-- Lazy capture `([\s\S]*?)` followed by a stop pattern: return the shortest
prefix of `s` after which `stop` holds (shortest-first is the exploration
order of a lazy quantifier). -/
def lazyCapture (stop : List Char → Bool) : List Char → Option (List Char)
  | [] => if stop [] then some [] else none
  | c :: rest =>
    if stop (c :: rest) then some []
    else
      match lazyCapture stop rest with
      | some cap => some (c :: cap)
      | none => none

/-- Tail `[^>]*>([\s\S]*?)<\/[^>]+>` of the selector regex anchored at the
start of `s`; `[^>]*` must end at the `>`, hence deterministic. -/
def selTail (s : List Char) : Option (List Char) :=
  let n := spanNotGt s
  match s.drop n with
  | '>' :: r8 => lazyCapture closeTagAt r8
  | _ => none

/-- Part `[^"']*["']` (after the selector pattern) followed by `selTail`.
The run must end at a quote, hence deterministic. -/
def selAfterPat (s : List Char) : Option (List Char) :=
  let n := spanNotQuote s
  match s.drop n with
  | q :: r7 => if quoteCh q then selTail r7 else none
  | [] => none

/-- Part `[^"']*SEL[^"']*["']...` inside the class attribute value; the first
`[^"']*` is greedy with backtracking (for `roleClass` the selector itself may
consume a quote character, so backtracking is genuinely needed). -/
def selClassVal (p : SelPat) (s : List Char) : Option (List Char) :=
  tryDesc s
    (fun r4 =>
      match selPatConsume p r4 with
      | some r5 => selAfterPat r5
      | none => none)
    (spanNotQuote s)

/-- Part `class=["']` then `selClassVal`, anchored at the start of `s`. -/
def selClassAt (p : SelPat) (s : List Char) : Option (List Char) :=
  if ciStartsWith "class=".data s then
    match s.drop 6 with
    | q :: r3 => if quoteCh q then selClassVal p r3 else none
    | [] => none
  else none

/-- Matcher for the full per-selector regex
`<[^>]*class=["'][^"']*SEL[^"']*["'][^>]*>([\s\S]*?)<\/[^>]+>` (flag `i`)
anchored at the start of `s`; returns the capture.  Note that the template
always requires a `class=` attribute, whatever the selector is. -/
def selMatchAt (p : SelPat) (s : List Char) : Option (List Char) :=
  match s with
  | '<' :: r => tryDesc r (selClassAt p) (spanNotGt r)
  | _ => none

/-- The source's ordered `contentSelectors` list, interpolated. -/
def contentSelectors : List SelPat :=
  [ .lit "article".data, .roleClass, .lit "post-content".data,
    .lit "entry-content".data, .lit "article-content".data,
    .lit "content".data, .lit "main".data ]

/-- The selector loop: first selector whose regex matches anywhere in
`clean` wins; its capture becomes the content (`""` if none matches). -/
def selectContentGo (clean : List Char) : List SelPat → List Char
  | [] => []
  | p :: ps =>
    match firstSome (selMatchAt p) clean with
    | some cap => cap
    | none => selectContentGo clean ps

/-- Content selection over the source's selector list. -/
def selectContent (clean : List Char) : List Char :=
  selectContentGo clean contentSelectors

/-- Matcher for `/<body[^>]*>([\s\S]*?)<\/body>/i` anchored at the start of
`s`; returns the lazy capture. -/
def bodyMatchAt (s : List Char) : Option (List Char) :=
  if ciStartsWith "<body".data s then
    let r1 := s.drop 5
    let n := spanNotGt r1
    match r1.drop n with
    | '>' :: r2 => lazyCapture (fun t => ciStartsWith "</body>".data t) r2
    | _ => none
  else none

/-- First match of the body regex in `s`. -/
def bodyCapture : List Char → Option (List Char) := firstSome bodyMatchAt

/-- Fueled global replacement of `/<[^>]+>/g` by a single space: at a `<`
followed by a nonempty non-`>` run and a `>`, emit one space and continue
after the `>`; otherwise keep the character. -/
def stripTagsF : Nat → List Char → List Char
  | _, [] => []
  | 0, s => s
  | fuel + 1, c :: rest =>
    if c = '<' then
      let n := spanNotGt rest
      if n = 0 then c :: stripTagsF fuel rest
      else
        match rest.drop n with
        | '>' :: r2 => ' ' :: stripTagsF fuel r2
        | _ => c :: stripTagsF fuel rest
    else c :: stripTagsF fuel rest

/-- `content.replace(/<[^>]+>/g, " ")`. -/
def stripTags (s : List Char) : List Char := stripTagsF s.length s

/-- Helper for `collapseWs`: the flag records whether we are inside a
whitespace run whose single replacement space was already emitted. -/
def collapseWsAux : Bool → List Char → List Char
  | _, [] => []
  | inRun, c :: rest =>
    if isJsWs c then
      if inRun then collapseWsAux true rest
      else ' ' :: collapseWsAux true rest
    else c :: collapseWsAux false rest

/-- `content.replace(/\s+/g, " ")`: every maximal whitespace run becomes a
single space. -/
def collapseWs (s : List Char) : List Char := collapseWsAux false s

/-- Extraction result `{title, content}` shared by both extractors. -/
structure Extraction : Type where
  title : String
  content : String
deriving DecidableEq

/-- Script/style stripping prologue of `extractWithTraditionalMethods`:
`html.replace(scriptRegex, "").replace(styleRegex, "")`. -/
def heuristicClean (html : String) : List Char :=
  replaceBlocks "style".data (replaceBlocks "script".data html.data)

/-- Title part of `extractWithTraditionalMethods`: the trimmed `<title>`
capture; if that is empty (JS falsiness of the empty string), the trimmed
og:title capture if the meta regex matches, else `"Untitled Article"`. -/
def heuristicTitle (clean : List Char) : List Char :=
  let title0 :=
    match titleCapture clean with
    | some cap => trimChars cap
    | none => []
  if title0 = [] then
    match metaCapture clean with
    | some cap => trimChars cap
    | none => "Untitled Article".data
  else title0

/-- Content part of `extractWithTraditionalMethods`: the selector loop, then
the `<body>` fallback, then the whole cleaned markup; finally tags are
stripped to spaces, whitespace is collapsed and the result trimmed. -/
def heuristicContent (clean : List Char) : List Char :=
  let content0 := selectContent clean
  let content1 :=
    if content0 = [] then
      match bodyCapture clean with
      | some cap => cap
      | none => clean
    else content0
  trimChars (collapseWs (stripTags content1))

/-- The heuristic extractor `extractWithTraditionalMethods(html)`. -/
def extractWithTraditionalMethods (html : String) : Extraction :=
  let clean := heuristicClean html
  ⟨⟨heuristicTitle clean⟩, ⟨heuristicContent clean⟩⟩

/-- The extraction coordinator `extractArticleContent(html, url)`.  The
model-based extractor `extractWithAI` performs an external model call, so it
is abstracted as the function argument `ai` (its result for given markup and
url, `Except.error` when the call itself fails); the coordinator invokes it
exactly when the heuristic result fails the quality gate
`!traditionalExtraction.title || traditionalExtraction.content.length < 200`. -/
def extractArticleContent (ai : String → String → Except String Extraction)
    (html url : String) : Except String Extraction :=
  let traditionalExtraction := extractWithTraditionalMethods html
  if traditionalExtraction.title = "" ∨ traditionalExtraction.content.length < 200 then
    ai html url
  else
    .ok traditionalExtraction

/-- The parsed JSON object of the model response in `extractWithAI`
(`JSON.parse(response.choices[0].message.content || "{}")`): each of the two
expected fields may be missing. -/
structure AIParsed : Type where
  title : Option String := none
  content : Option String := none

/-- JS `x || dflt` for an optional string field: a missing field (and the
empty string, which is falsy) is replaced by the default. -/
def jsOrString (o : Option String) (dflt : String) : String :=
  match o with
  | some s => if s = "" then dflt else s
  | none => dflt

/-- Result post-processing of `extractWithAI`:
`{title: result.title || "Untitled Article", content: result.content || "No content extracted"}`. -/
def extractWithAIResult (parsed : AIParsed) : Extraction :=
  ⟨jsOrString parsed.title "Untitled Article",
   jsOrString parsed.content "No content extracted"⟩

/-- Article status (`schema.ts`): `processing | completed | error`. -/
inductive Status : Type
  | processing
  | completed
  | error
deriving DecidableEq

/-- The persisted article record (`schema.ts`); `audioFileId` is an opaque
storage reference, modelled as a `Nat`. -/
structure Article : Type where
  url : String
  title : Option String := none
  content : Option String := none
  audioFileId : Option Nat := none
  status : Status
  errorMessage : Option String := none
deriving DecidableEq

/-- The articles table: an association list from document ids to records,
plus the next fresh id.  `ctx.db.insert` appends with a fresh id;
`ctx.db.patch` replaces in place. -/
structure DB : Type where
  records : List (Nat × Article)
  nextId : Nat
deriving DecidableEq

/-- Lookup of a document by id (`ctx.db.get`). -/
def lookupRec (id : Nat) : List (Nat × Article) → Option Article
  | [] => none
  | p :: ps => if p.1 = id then some p.2 else lookupRec id ps

/-- `ctx.db.get(articleId)` (also the `getArticle` internal query). -/
def dbGet (id : Nat) (db : DB) : Option Article := lookupRec id db.records

/-- In-place replacement of the record with the given id, used to model
`ctx.db.patch` once the patched record value is computed. -/
def setRec (id : Nat) (a : Article) : List (Nat × Article) → List (Nat × Article)
  | [] => []
  | p :: ps => if p.1 = id then (id, a) :: setRec id a ps else p :: setRec id a ps

/-- `DB`-level record replacement. -/
def dbSet (id : Nat) (a : Article) (db : DB) : DB :=
  { db with records := setRec id a db.records }

/-- `ctx.db.insert("articles", {url, status: "processing"})`: append the new
record under the next fresh id and return the id. -/
def dbInsert (a : Article) (db : DB) : DB × Nat :=
  ({ records := db.records ++ [(db.nextId, a)], nextId := db.nextId + 1 }, db.nextId)

/-- The `create` mutation: reject a duplicate url (`throw new Error("Article
already exists")`, which aborts the transaction, so no record is written);
otherwise insert a `processing` record and return its id.  The scheduled
`processArticle` run is a separate action; `create` itself performs no
pipeline work. -/
def create (url : String) (db : DB) : Except String (DB × Nat) :=
  if db.records.any (fun p => p.2.url = url) then
    .error "Article already exists"
  else
    .ok (dbInsert { url := url, status := .processing } db)

/-- The `retry` mutation: `throw new Error("Article not found")` when the id
does not resolve (aborting with no writes); otherwise patch the record back
to `processing`, clearing `errorMessage`, `title`, `content` and
`audioFileId` (a Convex patch with an explicit `undefined` removes the
field).  The new run is scheduled only after this patch. -/
def retry (articleId : Nat) (db : DB) : Except String (DB × Nat) :=
  match dbGet articleId db with
  | none => .error "Article not found"
  | some article =>
    .ok (dbSet articleId
          { article with
            status := .processing, errorMessage := none, title := none,
            content := none, audioFileId := none } db,
         articleId)

/-- The `updateArticle` internal mutation: patch `title` and `content`.
Convex `db.patch` throws when the document does not exist, modelled by the
`Except.error` branch. -/
def updateArticle (articleId : Nat) (title content : String) (db : DB) :
    Except String DB :=
  match dbGet articleId db with
  | none => .error "Update on nonexistent document"
  | some a => .ok (dbSet articleId { a with title := some title, content := some content } db)

/-- The `completeArticle` internal mutation: patch `status := completed` and
the audio file reference. -/
def completeArticle (articleId : Nat) (audioFileId : Nat) (db : DB) :
    Except String DB :=
  match dbGet articleId db with
  | none => .error "Update on nonexistent document"
  | some a => .ok (dbSet articleId { a with status := .completed, audioFileId := some audioFileId } db)

/-- The `markError` internal mutation: patch `status := error` and the
message.  Like every Convex patch it throws on a nonexistent document. -/
def markError (articleId : Nat) (errorMessage : String) (db : DB) :
    Except String DB :=
  match dbGet articleId db with
  | none => .error "Update on nonexistent document"
  | some a => .ok (dbSet articleId { a with status := .error, errorMessage := some errorMessage } db)

/-- Fetch response as seen by the orchestrator (`response.ok`,
`response.statusText`, `response.text()`). -/
structure FetchResponse : Type where
  ok : Bool
  statusText : String
  body : String

/-- The external collaborators of one `processArticle` run: the page fetch
(`Except.error` for a transport failure), the model-based extractor, the
ElevenLabs synthesis (a byte buffer, bytes as `Nat`), and the blob store. -/
structure Env : Type where
  fetchResult : Except String FetchResponse
  ai : String → String → Except String Extraction
  audioResult : String → Except String (List Nat)
  storeResult : List Nat → Except String Nat

/-- The `try` block of `processArticle`: load the record, fetch the page,
extract, write title/content, synthesize, store the blob, mark completed.
An error result carries the message together with the database as already
mutated by the run's earlier writes, which is what the `catch` block's
`markError` then patches. -/
def processArticleRun (env : Env) (articleId : Nat) (db : DB) :
    Except (String × DB) DB :=
  match dbGet articleId db with
  | none => .error ("Article not found", db)
  | some article =>
    match env.fetchResult with
    | .error e => .error (e, db)
    | .ok response =>
      if !response.ok then .error ("Failed to fetch article: " ++ response.statusText, db)
      else
        match extractArticleContent env.ai response.body article.url with
        | .error e => .error (e, db)
        | .ok extractedData =>
          match updateArticle articleId extractedData.title extractedData.content db with
          | .error e => .error (e, db)
          | .ok db1 =>
            match env.audioResult extractedData.content with
            | .error e => .error (e, db1)
            | .ok audioBuffer =>
              match env.storeResult audioBuffer with
              | .error e => .error (e, db1)
              | .ok audioFileId =>
                match completeArticle articleId audioFileId db1 with
                | .error e => .error (e, db1)
                | .ok db2 => .ok db2

/-- The `processArticle` internal action: the `try` block above, with the
`catch` block converting any raised message into a `markError` write.  The
`markError` call is itself a patch and can fail (nonexistent document), in
which case its exception escapes the action — the `catch` block does not
guard its own body. -/
def processArticle (env : Env) (articleId : Nat) (db : DB) : Except String DB :=
  match processArticleRun env articleId db with
  | .ok db2 => .ok db2
  | .error (e, dbm) => markError articleId e dbm

/-- Typed-array write `result.set(chunk, offset)` of `generateAudio`,
element by element (`List.set` is a no-op out of range; all writes performed
by `generateAudio` are in range). -/
def writeAt : List Nat → Nat → List Nat → List Nat
  | res, _, [] => res
  | res, off, b :: bs => writeAt (res.set off b) (off + 1) bs

/-- The chunk-combining epilogue of `generateAudio`: total length by
`reduce`, a zero-filled buffer (`new Uint8Array(totalLength)`), then each
chunk copied at its running offset. -/
def generateAudioConcat (chunks : List (List Nat)) : List Nat :=
  let totalLength := chunks.foldl (fun acc chunk => acc + chunk.length) 0
  let init := List.replicate totalLength 0
  (chunks.foldl (fun st chunk => (writeAt st.1 st.2 chunk, st.2 + chunk.length))
    (init, 0)).1

/-- The `generateAudio` action: fail when the ElevenLabs key is missing,
otherwise consume the provider stream (its chunks in arrival order are the
`chunks` argument) and return the combined buffer. -/
def generateAudio (apiKey : Option String) (chunks : List (List Nat)) :
    Except String (List Nat) :=
  match apiKey with
  | none => .error "ElevenLabs API key not configured"
  | some _ => .ok (generateAudioConcat chunks)

/-- Field-presence invariants of the article record (spec §3).  That
`status ∈ {processing, completed, error}` is enforced by the `Status` type
itself. -/
def articleInv (a : Article) : Prop :=
  (a.status = .processing → a.audioFileId = none) ∧
  (a.status = .completed → a.title ≠ none ∧ a.content ≠ none ∧ a.audioFileId ≠ none) ∧
  (a.status = .error → a.errorMessage ≠ none)

instance (a : Article) : Decidable (articleInv a) := by
  unfold articleInv; infer_instance

/-- All records of the table satisfy the invariants. -/
def dbInv (db : DB) : Prop := ∀ p ∈ db.records, articleInv p.2

instance (db : DB) : Decidable (dbInv db) := by
  unfold dbInv; exact List.decidableBAll _ _

/-- Well-formedness of the table: every stored id is below the next fresh
id (true of every database reachable through `dbInsert`). -/
def dbWF (db : DB) : Prop := ∀ p ∈ db.records, p.1 < db.nextId

instance (db : DB) : Decidable (dbWF db) := by
  unfold dbWF; exact List.decidableBAll _ _

/-- A 207-character article body used as concrete test input. -/
def bodyC1 : String :=
  "The quick brown fox jumps over the lazy dog while the calm river flows past the quiet village and the evening sun settles slowly behind the distant hills as birds return to their nests to rest for the night."

/-- Markup consisting of a `<title>Foo</title>` element and an `<article>`
element with a 207-character body. -/
def htmlC1 : String := "<title>Foo</title><article>" ++ bodyC1 ++ "</article>"

/-- Markup whose og:title meta attribute has whitespace-only content. -/
def htmlC10 : String := "<meta property=\"og:title\" content=\" \">"

/-- A stub model-based extractor used in concrete witnesses. -/
def aiStub : String → String → Except String Extraction :=
  fun _ _ => .ok ⟨"AI title", "AI content"⟩

/-- A concrete environment whose external calls all succeed. -/
def env0 : Env :=
  { fetchResult := .ok ⟨true, "OK", ""⟩
    ai := aiStub
    audioResult := fun _ => .ok []
    storeResult := fun _ => .ok 7 }

/-- A concrete environment whose fetch returns HTTP 404. -/
def env404 : Env :=
  { fetchResult := .ok ⟨false, "Not Found", ""⟩
    ai := aiStub
    audioResult := fun _ => .ok []
    storeResult := fun _ => .ok 7 }

/-- A concrete environment whose fetch fails at transport level. -/
def envFail : Env :=
  { fetchResult := .error "network down"
    ai := aiStub
    audioResult := fun _ => .ok []
    storeResult := fun _ => .ok 7 }

/-- A freshly submitted article record for url `"u"`. -/
def artP : Article := { url := "u", status := .processing }

/-- A one-record database holding `artP` under id 0. -/
def dbP : DB := { records := [(0, artP)], nextId := 1 }

/-- The empty database. -/
def db0 : DB := { records := [], nextId := 0 }

/-- A nonempty char list makes a nonempty `String`. -/
theorem string_mk_ne_empty (l : List Char) (h : l ≠ []) : (⟨l⟩ : String) ≠ "" :=
  fun hc => h (congrArg String.data hc)

/-- Setting an element just past a prefix rewrites the head of the tail. -/
theorem listSet_append_length (pre : List Nat) (b r : Nat) (rs : List Nat) :
    (pre ++ r :: rs).set pre.length b = pre ++ b :: rs := by
  induction pre with
  | nil => rfl
  | cons x xs ih => simp [List.set, ih]

/-- Writing a chunk at the offset right after `pre` overwrites the next
`chunk.length` cells and keeps everything else. -/
theorem writeAt_append (chunk : List Nat) : ∀ (pre rest : List Nat),
    chunk.length ≤ rest.length →
    writeAt (pre ++ rest) pre.length chunk = pre ++ chunk ++ List.drop chunk.length rest := by
  induction chunk with
  | nil => intro pre rest _; simp [writeAt]
  | cons b bs ih =>
    intro pre rest h
    cases rest with
    | nil => simp at h
    | cons r rs =>
      show writeAt ((pre ++ r :: rs).set pre.length b) (pre.length + 1) bs = _
      rw [listSet_append_length]
      have h2 : bs.length ≤ rs.length := by simpa using h
      have h3 := ih (pre ++ [b]) rs h2
      simp only [List.length_append, List.length_cons, List.length_nil,
        List.append_assoc, List.singleton_append, Nat.zero_add] at h3
      rw [h3]
      simp [List.append_assoc]

/-- The chunk-length fold is a sum: the initial accumulator shifts out. -/
theorem foldl_len_shift (cs : List (List Nat)) : ∀ n : Nat,
    cs.foldl (fun acc c => acc + c.length) n =
      n + cs.foldl (fun acc c => acc + c.length) 0 := by
  induction cs with
  | nil => simp
  | cons c cs ih =>
    intro n
    simp only [List.foldl_cons]
    rw [ih (n + c.length), ih (0 + c.length)]
    omega

/-- Invariant of the chunk-copy fold: starting from a buffer holding the
already-copied part followed by enough zeros, the fold fills in exactly the
concatenation of the remaining chunks. -/
theorem writeFold_spec : ∀ (chunks : List (List Nat)) (done : List Nat),
    (chunks.foldl (fun st chunk => (writeAt st.1 st.2 chunk, st.2 + chunk.length))
      (done ++ List.replicate (chunks.foldl (fun acc c => acc + c.length) 0) 0,
        done.length)).1 = done ++ chunks.flatten := by
  intro chunks
  induction chunks with
  | nil => intro done; simp
  | cons c cs ih =>
    intro done
    simp only [List.foldl_cons, List.flatten, Nat.zero_add]
    rw [foldl_len_shift cs c.length, List.replicate_add]
    rw [writeAt_append c done _ (by simp)]
    have hdrop := List.drop_left (List.replicate c.length (0 : Nat))
      (List.replicate (cs.foldl (fun acc x => acc + x.length) 0) 0)
    rw [List.length_replicate] at hdrop
    rw [hdrop]
    have h4 := ih (done ++ c)
    simp only [List.append_assoc, List.length_append] at h4
    simpa [List.append_assoc] using h4

/-- Looking up the id just replaced yields the new record (when present). -/
theorem lookupRec_setRec_self (i : Nat) (a b : Article) :
    ∀ l, lookupRec i l = some b → lookupRec i (setRec i a l) = some a := by
  intro l
  induction l with
  | nil => intro h; simp [lookupRec] at h
  | cons p ps ih =>
    intro h
    by_cases hp : p.1 = i
    · simp [lookupRec, setRec, hp]
    · simp only [lookupRec, setRec, hp, if_false] at h ⊢
      exact ih h

/-- Replacing one id leaves lookups of other ids unchanged. -/
theorem lookupRec_setRec_ne (i j : Nat) (a : Article) (hj : j ≠ i) :
    ∀ l, lookupRec j (setRec i a l) = lookupRec j l := by
  intro l
  induction l with
  | nil => simp [setRec]
  | cons p ps ih =>
    by_cases hp : p.1 = i
    · subst hp
      simp only [setRec, if_pos rfl, lookupRec]
      rw [if_neg (fun h => hj h.symm), if_neg (fun h => hj h.symm)]
      exact ih
    · simp only [setRec, hp, if_false, lookupRec]
      exact if_congr Iff.rfl rfl ih

/-- A record found by lookup is a member of the table. -/
theorem lookupRec_mem (i : Nat) (a : Article) :
    ∀ l, lookupRec i l = some a → (i, a) ∈ l := by
  intro l
  induction l with
  | nil => intro h; simp [lookupRec] at h
  | cons p ps ih =>
    intro h
    by_cases hp : p.1 = i
    · simp only [lookupRec, hp, if_true, Option.some.injEq] at h
      have hpa : p = (i, a) := by
        cases p
        simp_all
      rw [← hpa]
      exact List.mem_cons_self _ _
    · simp only [lookupRec, hp, if_false] at h
      exact List.mem_cons_of_mem _ (ih h)

/-- Record replacement preserves the pointwise invariant. -/
theorem setRec_inv (i : Nat) (a : Article) (ha : articleInv a) :
    ∀ l, (∀ p ∈ l, articleInv p.2) → ∀ p ∈ setRec i a l, articleInv p.2 := by
  intro l
  induction l with
  | nil => intro _ p hp; simp [setRec] at hp
  | cons q qs ih =>
    intro h p hp
    by_cases hq : q.1 = i
    · simp only [setRec, hq, if_true] at hp
      rcases List.mem_cons.mp hp with h1 | h1
      · subst h1; exact ha
      · exact ih (fun r hr => h r (List.mem_cons_of_mem _ hr)) p h1
    · simp only [setRec, hq, if_false] at hp
      rcases List.mem_cons.mp hp with h1 | h1
      · rw [h1]; exact h q (List.mem_cons_self _ _)
      · exact ih (fun r hr => h r (List.mem_cons_of_mem _ hr)) p h1

/-- Lookup over an appended table. -/
theorem lookupRec_append (i : Nat) : ∀ l1 l2 : List (Nat × Article),
    lookupRec i (l1 ++ l2) =
      match lookupRec i l1 with
      | some a => some a
      | none => lookupRec i l2 := by
  intro l1 l2
  induction l1 with
  | nil => simp [lookupRec]
  | cons p ps ih =>
    by_cases hp : p.1 = i
    · simp [lookupRec, hp]
    · simp [lookupRec, hp, ih]

/-- Ids below a bound never hit the bound on lookup. -/
theorem lookupRec_fresh (n : Nat) : ∀ l : List (Nat × Article),
    (∀ p ∈ l, p.1 < n) → lookupRec n l = none := by
  intro l
  induction l with
  | nil => intro _; rfl
  | cons p ps ih =>
    intro h
    have hp := h p (List.mem_cons_self _ _)
    simp only [lookupRec, if_neg (Nat.ne_of_lt hp)]
    exact ih (fun q hq => h q (List.mem_cons_of_mem _ hq))

/-- Patching title and content preserves the record invariants. -/
theorem articleInv_patchTC (a : Article) (t c : String) (h : articleInv a) :
    articleInv { a with title := some t, content := some c } := by
  obtain ⟨h1, h2, h3⟩ := h
  refine ⟨fun hs => h1 hs, fun hs => ?_, fun hs => h3 hs⟩
  exact ⟨Option.some_ne_none t, Option.some_ne_none c, (h2 hs).2.2⟩

/-- The error patch always satisfies the record invariants. -/
theorem articleInv_patchError (a : Article) (e : String) :
    articleInv { a with status := .error, errorMessage := some e } := by
  refine ⟨fun hs => ?_, fun hs => ?_, fun _ => Option.some_ne_none e⟩
  · exact absurd hs (by simp)
  · exact absurd hs (by simp)

/-- The completion patch satisfies the invariants when title and content are
already present. -/
theorem articleInv_patchComplete (a : Article) (f : Nat)
    (ht : a.title ≠ none) (hc : a.content ≠ none) :
    articleInv { a with status := .completed, audioFileId := some f } := by
  refine ⟨fun hs => ?_, fun _ => ⟨ht, hc, Option.some_ne_none f⟩, fun hs => ?_⟩
  · exact absurd hs (by simp)
  · exact absurd hs (by simp)

/-- A record with `processing` status and no optional fields satisfies the
invariants (freshly created or reset records). -/
theorem articleInv_fresh (u : String) :
    articleInv { url := u, status := .processing } :=
  ⟨fun _ => rfl, fun hs => absurd hs (by simp), fun hs => absurd hs (by simp)⟩

/-- The full reset performed by `retry` satisfies the invariants. -/
theorem articleInv_reset (a : Article) :
    articleInv { a with status := .processing, errorMessage := none, title := none,
                        content := none, audioFileId := none } :=
  ⟨fun _ => rfl, fun hs => absurd hs (by simp), fun hs => absurd hs (by simp)⟩

/-- `dbSet` preserves the table invariant when the new record is fine. -/
theorem dbInv_dbSet (i : Nat) (a : Article) (db : DB)
    (h : dbInv db) (ha : articleInv a) : dbInv (dbSet i a db) :=
  setRec_inv i a ha db.records h

/-- A record obtained by `dbGet` from an invariant table is invariant. -/
theorem dbInv_dbGet (i : Nat) (a : Article) (db : DB)
    (h : dbInv db) (hg : dbGet i db = some a) : articleInv a :=
  h (i, a) (lookupRec_mem i a db.records hg)

/-- `dbGet` after `dbSet` on the same (present) id. -/
theorem dbGet_dbSet_self (i : Nat) (a b : Article) (db : DB)
    (hg : dbGet i db = some b) : dbGet i (dbSet i a db) = some a :=
  lookupRec_setRec_self i a b db.records hg

/-- `markError` on a present record patches exactly status and message. -/
theorem markError_eq (i : Nat) (e : String) (db : DB) (a : Article)
    (hg : dbGet i db = some a) :
    markError i e db =
      .ok (dbSet i { a with status := .error, errorMessage := some e } db) := by
  unfold markError
  rw [hg]

/-- `updateArticle` on a present record patches exactly title and content. -/
theorem updateArticle_eq (i : Nat) (t c : String) (db : DB) (a : Article)
    (hg : dbGet i db = some a) :
    updateArticle i t c db =
      .ok (dbSet i { a with title := some t, content := some c } db) := by
  unfold updateArticle
  rw [hg]

/-- `completeArticle` on a present record patches status and audio ref. -/
theorem completeArticle_eq (i f : Nat) (db : DB) (a : Article)
    (hg : dbGet i db = some a) :
    completeArticle i f db =
      .ok (dbSet i { a with status := .completed, audioFileId := some f } db) := by
  unfold completeArticle
  rw [hg]

/-- Case analysis of a failed `try` block: the failure happened either
before any write (database unchanged) or after the title/content write. -/
theorem processArticleRun_error_state (env : Env) (i : Nat) (db : DB)
    (e : String) (dbm : DB)
    (h : processArticleRun env i db = .error (e, dbm)) :
    dbm = db ∨ ∃ (a : Article) (ex : Extraction), dbGet i db = some a ∧
      dbm = dbSet i { a with title := some ex.title, content := some ex.content } db := by
  cases hg : dbGet i db with
  | none =>
    left
    simp only [processArticleRun, hg, Except.error.injEq, Prod.mk.injEq] at h
    exact h.2.symm
  | some a =>
    cases hf : env.fetchResult with
    | error e0 =>
      left
      simp only [processArticleRun, hg, hf, Except.error.injEq, Prod.mk.injEq] at h
      exact h.2.symm
    | ok resp =>
      cases hok : resp.ok with
      | false =>
        left
        simp [processArticleRun, hg, hf, hok] at h
        exact h.2.symm
      | true =>
        cases hx : extractArticleContent env.ai resp.body a.url with
        | error e0 =>
          left
          simp [processArticleRun, hg, hf, hok, hx] at h
          exact h.2.symm
        | ok ex =>
          have hup := updateArticle_eq i ex.title ex.content db a hg
          cases haud : env.audioResult ex.content with
          | error e0 =>
            right
            simp [processArticleRun, hg, hf, hok, hx, hup, haud] at h
            exact ⟨a, ex, rfl, h.2.symm⟩
          | ok buf =>
            cases hst : env.storeResult buf with
            | error e0 =>
              right
              simp [processArticleRun, hg, hf, hok, hx, hup, haud, hst] at h
              exact ⟨a, ex, rfl, h.2.symm⟩
            | ok fid =>
              have hg1 := dbGet_dbSet_self i { a with title := some ex.title, content := some ex.content } a db hg
              have hco := completeArticle_eq i fid (dbSet i { a with title := some ex.title, content := some ex.content } db) { a with title := some ex.title, content := some ex.content } hg1
              simp [processArticleRun, hg, hf, hok, hx, hup, haud, hst, hco] at h

/-- Case analysis of a successful `try` block: the record was present and
the final database is the completion patch over the title/content patch. -/
theorem processArticleRun_ok_state (env : Env) (i : Nat) (db : DB) (db2 : DB)
    (h : processArticleRun env i db = .ok db2) :
    ∃ (a : Article) (ex : Extraction) (fid : Nat), dbGet i db = some a ∧
      db2 = dbSet i { a with title := some ex.title, content := some ex.content, audioFileId := some fid, status := Status.completed }
        (dbSet i { a with title := some ex.title, content := some ex.content } db) := by
  cases hg : dbGet i db with
  | none =>
    simp only [processArticleRun, hg] at h
    exact Except.noConfusion h
  | some a =>
    cases hf : env.fetchResult with
    | error e0 =>
      simp only [processArticleRun, hg, hf] at h
      exact Except.noConfusion h
    | ok resp =>
      cases hok : resp.ok with
      | false => simp [processArticleRun, hg, hf, hok] at h
      | true =>
        cases hx : extractArticleContent env.ai resp.body a.url with
        | error e0 => simp [processArticleRun, hg, hf, hok, hx] at h
        | ok ex =>
          have hup := updateArticle_eq i ex.title ex.content db a hg
          cases haud : env.audioResult ex.content with
          | error e0 => simp [processArticleRun, hg, hf, hok, hx, hup, haud] at h
          | ok buf =>
            cases hst : env.storeResult buf with
            | error e0 => simp [processArticleRun, hg, hf, hok, hx, hup, haud, hst] at h
            | ok fid =>
              have hg1 := dbGet_dbSet_self i { a with title := some ex.title, content := some ex.content } a db hg
              have hco := completeArticle_eq i fid (dbSet i { a with title := some ex.title, content := some ex.content } db) { a with title := some ex.title, content := some ex.content } hg1
              simp [processArticleRun, hg, hf, hok, hx, hup, haud, hst, hco] at h
              exact ⟨a, ex, fid, rfl, h.symm⟩

/-- A failed `try` block keeps the processed record present. -/
theorem processArticleRun_error_get (env : Env) (i : Nat) (db : DB)
    (e : String) (dbm : DB) (a : Article)
    (hg : dbGet i db = some a)
    (h : processArticleRun env i db = .error (e, dbm)) :
    ∃ r, dbGet i dbm = some r := by
  rcases processArticleRun_error_state env i db e dbm h with h1 | ⟨b, ex, hb, h1⟩
  · exact ⟨a, h1 ▸ hg⟩
  · exact ⟨_, h1 ▸ dbGet_dbSet_self i _ b db hb⟩

/-- A failed `try` block preserves the table invariant. -/
theorem processArticleRun_error_inv (env : Env) (i : Nat) (db : DB)
    (e : String) (dbm : DB)
    (hinv : dbInv db)
    (h : processArticleRun env i db = .error (e, dbm)) : dbInv dbm := by
  rcases processArticleRun_error_state env i db e dbm h with h1 | ⟨b, ex, hb, h1⟩
  · exact h1 ▸ hinv
  · exact h1 ▸ dbInv_dbSet i _ db hinv
      (articleInv_patchTC b ex.title ex.content (dbInv_dbGet i b db hinv hb))

/-- `processArticle` preserves the table invariant whenever it returns. -/
theorem processArticle_ok_inv (env : Env) (i : Nat) (db : DB) (db2 : DB)
    (hinv : dbInv db)
    (h : processArticle env i db = .ok db2) : dbInv db2 := by
  cases hrun : processArticleRun env i db with
  | ok dbv =>
    simp only [processArticle, hrun, Except.ok.injEq] at h
    obtain ⟨a, ex, fid, hg, hdb⟩ := processArticleRun_ok_state env i db dbv hrun
    subst h
    subst hdb
    have h1 : articleInv { a with title := some ex.title, content := some ex.content } :=
      articleInv_patchTC a ex.title ex.content (dbInv_dbGet i a db hinv hg)
    have h2 : dbInv (dbSet i { a with title := some ex.title, content := some ex.content } db) :=
      dbInv_dbSet i _ db hinv h1
    refine dbInv_dbSet i _ _ h2 ?_
    exact articleInv_patchComplete { a with title := some ex.title, content := some ex.content } fid (by simp) (by simp)
  | error p =>
    obtain ⟨e0, dbm0⟩ := p
    simp only [processArticle, hrun] at h
    cases hr : dbGet i dbm0 with
    | none => rw [markError, hr] at h; cases h
    | some r =>
      rw [markError_eq i e0 dbm0 r hr] at h
      have hminv : dbInv dbm0 := processArticleRun_error_inv env i db e0 dbm0 hinv hrun
      have h2 := dbInv_dbSet i { r with status := .error, errorMessage := some e0 } dbm0 hminv (articleInv_patchError r e0)
      simp only [Except.ok.injEq] at h
      exact h ▸ h2

/-- Inserting an invariant record preserves the table invariant. -/
theorem dbInv_dbInsert (a : Article) (db : DB) (h : dbInv db) (ha : articleInv a) :
    dbInv (dbInsert a db).1 := by
  intro p hp
  simp only [dbInsert] at hp
  rcases List.mem_append.mp hp with h1 | h1
  · exact h p h1
  · rw [List.mem_singleton] at h1
    subst h1
    exact ha

set_option maxRecDepth 8000 in
/-- Concrete evaluation of the heuristic extractor on `htmlC1`: the title is
the `<title>` text and the content is the text of the whole markup — title
text included — because no selector regex matches a class-less `<article>`. -/
theorem heurC1_eval :
    extractWithTraditionalMethods htmlC1 = ⟨"Foo", "Foo " ++ bodyC1⟩ := by decide

set_option maxRecDepth 8000 in
/-- C1: on markup made of `<title>Foo</title>` and a 207-character
`<article>` body, the claim expects the heuristic content to be the article
body alone, matched by the `article` candidate selector.  On the code, every
selector regex requires a `class` attribute, so the bare `<article>` element
never matches any selector (`selectContent` returns nothing); the content
falls back to the whole cleaned markup, whose stripped text is `"Foo "`
followed by the body — the title text leaks into the content, which
therefore differs from the body.  The coordinator still returns the
heuristic result without invoking the model extractor, since the gate passes. -/
theorem heuristic_article_selector_eval :
    extractWithTraditionalMethods htmlC1 = ⟨"Foo", "Foo " ++ bodyC1⟩ ∧
    (∀ ai url, extractArticleContent ai htmlC1 url = .ok ⟨"Foo", "Foo " ++ bodyC1⟩) ∧
    ("Foo " ++ bodyC1 : String) ≠ bodyC1 ∧
    selectContent (heuristicClean htmlC1) = [] := by
  refine ⟨heurC1_eval, ?_, by decide, by decide⟩
  intro ai url
  simp only [extractArticleContent, heurC1_eval]
  rw [if_neg (by decide)]

/-- C2: the extraction coordinator keeps the heuristic result exactly when
its title is nonempty and its content has length at least 200; otherwise —
title empty or content length below 200, the exact quality gate — it returns
the model-based extractor's result. -/
theorem extraction_coordinator_quality_gate
    (ai : String → String → Except String Extraction) (html url : String) :
    ((extractWithTraditionalMethods html).title ≠ "" ∧
        200 ≤ (extractWithTraditionalMethods html).content.length →
      extractArticleContent ai html url = .ok (extractWithTraditionalMethods html)) ∧
    ((extractWithTraditionalMethods html).title = "" ∨
        (extractWithTraditionalMethods html).content.length < 200 →
      extractArticleContent ai html url = ai html url) := by
  constructor
  · intro hpass
    have hnot : ¬((extractWithTraditionalMethods html).title = "" ∨
        (extractWithTraditionalMethods html).content.length < 200) := by
      rintro (h1 | h2)
      · exact hpass.1 h1
      · exact absurd hpass.2 (Nat.not_le.mpr h2)
    simp only [extractArticleContent]
    rw [if_neg hnot]
  · intro hfail
    simp only [extractArticleContent]
    rw [if_pos hfail]

set_option maxRecDepth 8000 in
/-- C2 witness: the coordinator on a concrete gate-passing input (the
heuristic result is kept, untouched by the stub model extractor) and on a
concrete gate-failing input (the stub model extractor's result is returned). -/
theorem extraction_coordinator_quality_gate_witness :
    extractArticleContent aiStub htmlC1 "u" = .ok ⟨"Foo", "Foo " ++ bodyC1⟩ ∧
    extractArticleContent aiStub "" "u" = aiStub "" "u" := by
  constructor
  · have h := (extraction_coordinator_quality_gate aiStub htmlC1 "u").1
      ⟨by rw [heurC1_eval]; decide, by rw [heurC1_eval]; decide⟩
    rw [heurC1_eval] at h
    exact h
  · exact (extraction_coordinator_quality_gate aiStub "" "u").2 (Or.inr (by decide))

/-- C8: for every finite sequence of chunks yielded by the provider stream,
the audio buffer returned by `generateAudio` (when a key is configured) is
exactly the concatenation of the chunks in arrival order — no bytes added,
dropped or reordered. -/
theorem generateAudio_concatenates_chunks (key : String) (chunks : List (List Nat)) :
    generateAudio (some key) chunks = .ok chunks.flatten := by
  have h := writeFold_spec chunks []
  simp only [List.nil_append, List.length_nil] at h
  simp only [generateAudio, generateAudioConcat, Except.ok.injEq]
  exact h

/-- C9: the model-based extractor's post-processing substitutes the literal
`"Untitled Article"` for a missing title field and the literal placeholder
`"No content extracted"` for a missing content field, instead of failing. -/
theorem extractWithAI_missing_field_defaults (parsed : AIParsed) :
    (parsed.title = none → (extractWithAIResult parsed).title = "Untitled Article") ∧
    (parsed.content = none → (extractWithAIResult parsed).content = "No content extracted") := by
  constructor
  · intro h
    simp [extractWithAIResult, jsOrString, h]
  · intro h
    simp [extractWithAIResult, jsOrString, h]

/-- C9 witness: the defaults on the fully missing parsed response. -/
theorem extractWithAI_missing_field_defaults_witness :
    (extractWithAIResult ⟨none, none⟩).title = "Untitled Article" ∧
    (extractWithAIResult ⟨none, none⟩).content = "No content extracted" :=
  ⟨(extractWithAI_missing_field_defaults ⟨none, none⟩).1 rfl,
   (extractWithAI_missing_field_defaults ⟨none, none⟩).2 rfl⟩

set_option maxRecDepth 8000 in
/-- C10 counterexample: on markup whose og:title meta content is
whitespace-only, the heuristic extractor returns an empty title (the capture
is trimmed to nothing), so the heuristic title is not always non-empty and
the coordinator's quality gate can fire on the title condition. -/
theorem heuristic_title_empty_counterexample :
    (extractWithTraditionalMethods htmlC10).title = "" := by decide

/-- C10 (amended): the heuristic title is non-empty whenever the og:title
meta pattern either does not match the cleaned markup or captures text that
is not whitespace-only; the `"Untitled Article"` default is used only when
the og:title pattern does not match at all.  When the pattern matches
whitespace-only text, the title is empty (see the counterexample). -/
theorem heuristic_title_nonempty (html : String)
    (hog : ∀ s, metaCapture (heuristicClean html) = some s → trimChars s ≠ []) :
    (extractWithTraditionalMethods html).title ≠ "" := by
  have hne : heuristicTitle (heuristicClean html) ≠ [] := by
    simp only [heuristicTitle]
    by_cases h0 : (match titleCapture (heuristicClean html) with
        | some cap => trimChars cap
        | none => ([] : List Char)) = []
    · rw [if_pos h0]
      cases hm : metaCapture (heuristicClean html) with
      | none => decide
      | some s => exact hog s hm
    · rw [if_neg h0]
      exact h0
  intro hcon
  exact hne (congrArg String.data hcon)

/-- C10 witness: a markup with a plain `<title>` has no og:title match, so
the amended theorem applies and yields a non-empty heuristic title. -/
theorem heuristic_title_nonempty_witness :
    (extractWithTraditionalMethods "<title>Bar</title>").title ≠ "" :=
  heuristic_title_nonempty "<title>Bar</title>" (fun s h => by
    rw [show metaCapture (heuristicClean "<title>Bar</title>") = none from by decide] at h
    exact Option.noConfusion h)

/-- C3: after every operation — submit (`create`), `retry`, and each of the
orchestrator's record writes (the `updateArticle` title/content write, the
`markError` write, the `completeArticle` write as the orchestrator performs
it, i.e. on a record whose title and content are present, and any complete
`processArticle` run with all its intermediate writes) — every record
satisfies the field-presence invariants; `status ∈ {processing, completed,
error}` is enforced by the `Status` type itself. -/
theorem article_record_invariants (db : DB) (url : String) (i fid : Nat)
    (t c e : String) (env : Env) (hinv : dbInv db) :
    (∀ db2 j, create url db = .ok (db2, j) → dbInv db2) ∧
    (∀ db2 j, retry i db = .ok (db2, j) → dbInv db2) ∧
    (∀ db2, updateArticle i t c db = .ok db2 → dbInv db2) ∧
    (∀ db2, markError i e db = .ok db2 → dbInv db2) ∧
    (∀ a db2, dbGet i db = some a → a.title ≠ none → a.content ≠ none →
      completeArticle i fid db = .ok db2 → dbInv db2) ∧
    (∀ db2, processArticle env i db = .ok db2 → dbInv db2) := by
  refine ⟨?_, ?_, ?_, ?_, ?_, ?_⟩
  · intro db2 j h
    unfold create at h
    split at h
    · exact Except.noConfusion h
    · simp only [Except.ok.injEq] at h
      have h1 : (dbInsert { url := url, status := .processing } db).1 = db2 :=
        congrArg Prod.fst h
      rw [← h1]
      exact dbInv_dbInsert { url := url, status := .processing } db hinv
        (articleInv_fresh url)
  · intro db2 j h
    cases hgr : dbGet i db with
    | none => simp [retry, hgr] at h
    | some a =>
      simp only [retry, hgr, Except.ok.injEq, Prod.mk.injEq] at h
      obtain ⟨h1, _⟩ := h
      rw [← h1]
      exact dbInv_dbSet i _ db hinv (articleInv_reset a)
  · intro db2 h
    cases hgr : dbGet i db with
    | none => simp [updateArticle, hgr] at h
    | some a =>
      rw [updateArticle_eq i t c db a hgr] at h
      simp only [Except.ok.injEq] at h
      rw [← h]
      exact dbInv_dbSet i _ db hinv
        (articleInv_patchTC a t c (dbInv_dbGet i a db hinv hgr))
  · intro db2 h
    cases hgr : dbGet i db with
    | none => simp [markError, hgr] at h
    | some a =>
      rw [markError_eq i e db a hgr] at h
      simp only [Except.ok.injEq] at h
      rw [← h]
      exact dbInv_dbSet i _ db hinv (articleInv_patchError a e)
  · intro a db2 hgr ht hc h
    rw [completeArticle_eq i fid db a hgr] at h
    simp only [Except.ok.injEq] at h
    rw [← h]
    exact dbInv_dbSet i _ db hinv (articleInv_patchComplete a fid ht hc)
  · intro db2 h
    exact processArticle_ok_inv env i db db2 hinv h

/-- C3 witness: the invariants hold concretely after a `markError` write on
the one-record table. -/
theorem article_record_invariants_witness :
    dbInv ⟨[(0, ⟨"u", none, none, none, Status.error, some "boom"⟩)], 1⟩ :=
  (article_record_invariants dbP "u" 0 0 "t" "c" "boom" env0 (by decide)).2.2.2.1
    ⟨[(0, ⟨"u", none, none, none, Status.error, some "boom"⟩)], 1⟩ rfl

/-- C4 (amended): when the processed record exists, every terminal failure
inside the run — fetch failure or non-success response, extraction failure,
synthesis failure, storage failure — is caught at the orchestrator's top
level and converted into a `status=error` write carrying the failure's
message, and the action returns normally.  (When the record is missing, the
`markError` patch in the catch block itself throws and that exception does
escape the orchestrator — see the counterexample.) -/
theorem orchestrator_error_conversion (env : Env) (i : Nat) (db : DB)
    (a : Article) (hg : dbGet i db = some a) :
    ∃ db2, processArticle env i db = .ok db2 ∧
      ∀ e dbm, processArticleRun env i db = .error (e, dbm) →
        ∃ r, dbGet i db2 = some r ∧ r.status = .error ∧ r.errorMessage = some e := by
  cases hrun : processArticleRun env i db with
  | ok dbv =>
    refine ⟨dbv, by simp [processArticle, hrun], ?_⟩
    intro e dbm hco
    exact Except.noConfusion hco
  | error p =>
    obtain ⟨e0, dbm0⟩ := p
    obtain ⟨r0, hr0⟩ := processArticleRun_error_get env i db e0 dbm0 a hg hrun
    refine ⟨dbSet i { r0 with status := .error, errorMessage := some e0 } dbm0, ?_, ?_⟩
    · simp only [processArticle, hrun]
      exact markError_eq i e0 dbm0 r0 hr0
    · intro e dbm hco
      simp only [Except.error.injEq, Prod.mk.injEq] at hco
      obtain ⟨he, _⟩ := hco
      rw [← he]
      exact ⟨{ r0 with status := .error, errorMessage := some e0 },
        dbGet_dbSet_self i _ r0 dbm0 hr0, rfl, rfl⟩

/-- C4 counterexample: with no record under the processed id, the run's
failure cannot be recorded — the catch block's `markError` patch throws on
the nonexistent document and the exception escapes `processArticle`,
contradicting the claim that every terminal failure is converted into an
error record write and never re-thrown past the orchestrator. -/
theorem orchestrator_missing_record_escape :
    processArticle env0 0 db0 = .error "Update on nonexistent document" := rfl

/-- C4 witness: a concrete failing fetch against a present record is caught
and recorded. -/
theorem orchestrator_error_conversion_witness :
    ∃ db2, processArticle envFail 0 dbP = .ok db2 ∧
      ∀ e dbm, processArticleRun envFail 0 dbP = .error (e, dbm) →
        ∃ r, dbGet 0 db2 = some r ∧ r.status = .error ∧ r.errorMessage = some e :=
  orchestrator_error_conversion envFail 0 dbP artP rfl

/-- C5: submitting a url that already has an article fails with the
duplicate error and, the transaction aborting, writes nothing; submitting a
fresh url to a well-formed table creates exactly one record, in `processing`
state with all optional fields absent, under the fresh id that is returned
immediately (the pipeline runs in a separately scheduled action), and leaves
every existing record unchanged. -/
theorem submit_duplicate_and_fresh (url : String) (db : DB) :
    ((∃ p ∈ db.records, p.2.url = url) →
      create url db = .error "Article already exists") ∧
    (dbWF db → (∀ p ∈ db.records, p.2.url ≠ url) →
      ∃ db2, create url db = .ok (db2, db.nextId) ∧
        dbGet db.nextId db2 = some ⟨url, none, none, none, .processing, none⟩ ∧
        ∀ j, j ≠ db.nextId → lookupRec j db2.records = lookupRec j db.records) := by
  constructor
  · rintro ⟨p, hp, hu⟩
    have hany : db.records.any (fun p => p.2.url = url) = true :=
      List.any_eq_true.mpr ⟨p, hp, by simp [hu]⟩
    simp only [create]
    rw [if_pos hany]
  · intro hwf hfresh
    have hany : ¬(db.records.any (fun p => p.2.url = url) = true) := by
      rw [List.any_eq_true]
      rintro ⟨p, hp, hu⟩
      exact hfresh p hp (by simpa using hu)
    refine ⟨(dbInsert { url := url, status := .processing } db).1, ?_, ?_, ?_⟩
    · simp only [create]
      rw [if_neg hany]
      rfl
    · show lookupRec db.nextId
        (db.records ++ [(db.nextId, { url := url, status := Status.processing })]) = _
      rw [lookupRec_append]
      rw [lookupRec_fresh db.nextId db.records hwf]
      simp [lookupRec]
    · intro j hj
      show lookupRec j
        (db.records ++ [(db.nextId, { url := url, status := Status.processing })]) =
        lookupRec j db.records
      rw [lookupRec_append]
      cases hlj : lookupRec j db.records with
      | some a => rfl
      | none =>
        simp only [lookupRec]
        rw [if_neg (fun h => hj h.symm)]

/-- C5 witness: a duplicate and a fresh submission against the one-record
table. -/
theorem submit_duplicate_and_fresh_witness :
    create "u" dbP = .error "Article already exists" ∧
    ∃ db2, create "v" dbP = .ok (db2, 1) ∧
      dbGet 1 db2 = some ⟨"v", none, none, none, .processing, none⟩ ∧
      ∀ j, j ≠ 1 → lookupRec j db2.records = lookupRec j dbP.records :=
  ⟨(submit_duplicate_and_fresh "u" dbP).1 ⟨(0, artP), by decide, rfl⟩,
   (submit_duplicate_and_fresh "v" dbP).2 (by decide) (by decide)⟩

/-- C6: retrying an existing article — whatever its state — patches the
record back to `processing` with title, content, audio reference and error
message all cleared (this patch is performed before the new run is
scheduled), leaving all other records unchanged; retrying a missing id
fails with the not-found error and, the transaction aborting, writes
nothing. -/
theorem retry_reset_and_missing (i : Nat) (db : DB) :
    (dbGet i db = none → retry i db = .error "Article not found") ∧
    (∀ a, dbGet i db = some a →
      ∃ db2, retry i db = .ok (db2, i) ∧
        dbGet i db2 = some ⟨a.url, none, none, none, .processing, none⟩ ∧
        ∀ j, j ≠ i → lookupRec j db2.records = lookupRec j db.records) := by
  constructor
  · intro h
    simp [retry, h]
  · intro a hga
    refine ⟨dbSet i { a with status := .processing, errorMessage := none, title := none, content := none, audioFileId := none } db, ?_, ?_, ?_⟩
    · simp [retry, hga]
    · exact dbGet_dbSet_self i { a with status := .processing, errorMessage := none, title := none, content := none, audioFileId := none } a db hga
    · intro j hj
      exact lookupRec_setRec_ne i j _ hj db.records

/-- C6 witness: a missing-id retry and a concrete reset on the one-record
table. -/
theorem retry_reset_and_missing_witness :
    retry 5 dbP = .error "Article not found" ∧
    ∃ db2, retry 0 dbP = .ok (db2, 0) ∧
      dbGet 0 db2 = some ⟨"u", none, none, none, .processing, none⟩ ∧
      ∀ j, j ≠ 0 → lookupRec j db2.records = lookupRec j dbP.records :=
  ⟨(retry_reset_and_missing 5 dbP).1 rfl,
   (retry_reset_and_missing 0 dbP).2 artP rfl⟩

/-- C7: a non-success fetch response on a freshly submitted record (all
optional fields absent) ends the run with the record in `status=error`, an
`errorMessage` embedding the HTTP status text, and title, content and audio
reference still absent. -/
theorem fetch_failure_marks_error (env : Env) (i : Nat) (db : DB)
    (url : String) (resp : FetchResponse)
    (hf : env.fetchResult = .ok resp) (hok : resp.ok = false)
    (hg : dbGet i db = some ⟨url, none, none, none, .processing, none⟩) :
    ∃ db2 r, processArticle env i db = .ok db2 ∧ dbGet i db2 = some r ∧
      r.status = .error ∧
      r.errorMessage = some ("Failed to fetch article: " ++ resp.statusText) ∧
      (∃ s1, "Failed to fetch article: " ++ resp.statusText = s1 ++ resp.statusText) ∧
      r.title = none ∧ r.content = none ∧ r.audioFileId = none := by
  have hrun : processArticleRun env i db =
      .error ("Failed to fetch article: " ++ resp.statusText, db) := by
    simp [processArticleRun, hg, hf, hok]
  refine ⟨dbSet i { url := url, title := none, content := none, audioFileId := none, status := .error, errorMessage := some ("Failed to fetch article: " ++ resp.statusText) } db, { url := url, title := none, content := none, audioFileId := none, status := .error, errorMessage := some ("Failed to fetch article: " ++ resp.statusText) }, ?_, ?_, rfl, rfl, ⟨"Failed to fetch article: ", rfl⟩, rfl, rfl, rfl⟩
  · simp only [processArticle, hrun]
    exact markError_eq i _ db _ hg
  · exact dbGet_dbSet_self i _ _ db hg

/-- C7 witness: a concrete 404 fetch on the one-record table. -/
theorem fetch_failure_marks_error_witness :
    ∃ db2 r, processArticle env404 0 dbP = .ok db2 ∧ dbGet 0 db2 = some r ∧
      r.status = Status.error ∧
      r.errorMessage = some ("Failed to fetch article: " ++ "Not Found") ∧
      (∃ s1, "Failed to fetch article: " ++ "Not Found" = s1 ++ "Not Found") ∧
      r.title = none ∧ r.content = none ∧ r.audioFileId = none :=
  fetch_failure_marks_error env404 0 dbP "u" ⟨false, "Not Found", ""⟩ rfl rfl rfl
